import Mathlib

/-!
Verification of the Timeline widget (src/Timeline.js).

Shallow embedding of the widget state and of the operations the claims
concern: the animation-frame render scheduler (`Proto.render`,
`Proto.renderTrack`), the track registry (`Proto.addTextTrack`,
`Proto.removeTextTrack`, the ORDER-tool swap in `mouseMove`), the AB-repeat
range (`abRepeatOn` setter, `clearRepeat`, `setRepeat`, `updateABPoints`,
`resetABPoints`, the REPEAT branches of `mouseDown`/`mouseMove`/`mouseUp`),
the `currentTime` setter, the rubber-band `Selection.prototype.mouseUp`
hit test, `Proto.addSegment` and `Proto.addAudioTrack`.

Machine numbers (JS doubles) are modelled as rationals (`ℚ`); JS object
maps are modelled as association lists with JS-object key semantics
(unique keys: assignment replaces in place, delete removes); JS object
identity of tracks/segments is modelled by their position (index).
Canvas drawing calls mutate no model state and are dropped; render
*scheduling* is modelled by the `Sched` component below.

The `Timeline.View` class and the `TextTrack` class live in other files
of the repository that are not part of src/; the definitions that need
them (`pixelToTime`, `timeToPixel`, `viewCenter`, `mkTextTrack`,
`Track.add`, `visibleSegments`) are modelled from the spec and say so in
their doc comments.
-/

/-- A mouse position in canvas pixel coordinates (JS `{x, y}`). -/
structure Pos where
  x : ℚ
  y : ℚ
deriving DecidableEq

/-- A time-bounded segment (cue) on a track: `startTime`, `endTime`,
`selected` (src/Timeline.js keeps these on the segment objects of each
track). -/
structure Segment where
  startTime : ℚ
  endTime : ℚ
  selected : Bool
deriving DecidableEq

instance : Inhabited Segment := ⟨⟨0, 0, false⟩⟩

/-- A cue to be inserted by `addSegment` (external `TextTrack.Cue` data:
only its time bounds matter to the model). -/
structure Cue where
  startTime : ℚ
  endTime : ℚ
deriving DecidableEq

/-- A text track handle: its `id` (the label), its optional bound audio
track id (`audioId`) and its segments. -/
structure Track where
  id : String
  audioId : Option String
  segments : List Segment
deriving DecidableEq

instance : Inhabited Track := ⟨⟨"", none, []⟩⟩

/-- An audio track handle stored in `this.audio`: its `id` and its
reference count (`references`). -/
structure AudioTrack where
  id : String
  references : Int
deriving DecidableEq

instance : Inhabited AudioTrack := ⟨⟨"", 0⟩⟩

/-- Events emitted through `Proto.emit`.  Where the source emits an
object (a track or a segment), the model emits its identity: the track
id, or the (track index, segment index) pair. -/
inductive Event where
  | addtrack (id : String)
  | removetrack (id : String)
  | select (trackIdx : Nat) (segIdx : Nat)
  | timeupdate (t : ℚ)
  | jump (t : ℚ)
  | abRepeatSet
  | abRepeatUnset
  | abRepeatEnabled
  | abRepeatDisabled
deriving DecidableEq

/-! ### JS object maps

`this.trackIndices` and `this.audio` are plain JS objects used as string
maps.  JS objects have unique keys; assignment to an existing key
replaces its value in place, assignment to a fresh key appends it, and
`delete` removes the key. -/

/-- JS `obj[k]` (as an `Option`). -/
def jsGet {α : Type} (m : List (String × α)) (k : String) : Option α :=
  match m with
  | [] => none
  | p :: rest => if p.1 = k then some p.2 else jsGet rest k

/-- JS `obj.hasOwnProperty(k)`. -/
def jsHas {α : Type} (m : List (String × α)) (k : String) : Bool :=
  match m with
  | [] => false
  | p :: rest => p.1 == k || jsHas rest k

/-- JS `obj[k] = v`: replace the value of `k` in place if present,
append the pair otherwise. -/
def jsSet {α : Type} (m : List (String × α)) (k : String) (v : α) :
    List (String × α) :=
  match m with
  | [] => [(k, v)]
  | p :: rest => if p.1 = k then (k, v) :: rest else p :: jsSet rest k v

/-- JS `delete obj[k]`. -/
def jsDel {α : Type} (m : List (String × α)) (k : String) :
    List (String × α) :=
  match m with
  | [] => []
  | p :: rest => if p.1 = k then jsDel rest k else p :: jsDel rest k

theorem jsGet_jsSet {α : Type} (m : List (String × α)) (k : String) (v : α)
    (k' : String) :
    jsGet (jsSet m k v) k' = if k' = k then some v else jsGet m k' := by
  induction m with
  | nil =>
      by_cases h : k' = k
      · simp [jsGet, jsSet, h]
      · simp [jsGet, jsSet, h, Ne.symm h]
  | cons p rest ih =>
      by_cases hpk : p.1 = k
      · by_cases h : k' = k
        · simp [jsGet, jsSet, hpk, h]
        · have h3 : ¬ p.1 = k' := fun hc => h (hc.symm.trans hpk)
          simp [jsGet, jsSet, hpk, h, Ne.symm h, h3]
      · by_cases h : k' = p.1
        · have h2 : ¬ k' = k := fun hc => hpk (h.symm.trans hc)
          simp [jsGet, jsSet, hpk, h, h2, ih]
        · simp [jsGet, jsSet, hpk, h, Ne.symm h, ih]

theorem jsGet_jsDel {α : Type} (m : List (String × α)) (k k' : String) :
    jsGet (jsDel m k) k' = if k' = k then none else jsGet m k' := by
  induction m with
  | nil => simp [jsDel, jsGet]
  | cons p rest ih =>
      by_cases hpk : p.1 = k
      · by_cases h : k' = k
        · subst h
          simp [jsGet, jsDel, hpk, ih]
        · have h3 : ¬ p.1 = k' := fun hc => h (hc.symm.trans hpk)
          simp [jsGet, jsDel, hpk, h, h3, Ne.symm h, ih]
      · by_cases h : k' = p.1
        · have h2 : ¬ k' = k := fun hc => hpk (h.symm.trans hc)
          simp [jsGet, jsDel, hpk, h, h2]
        · simp [jsGet, jsDel, hpk, h, Ne.symm h, ih]

theorem jsGet_of_jsHas {α : Type} (m : List (String × α)) (k : String)
    (h : jsHas m k = true) : ∃ v, jsGet m k = some v := by
  induction m with
  | nil => simp [jsHas] at h
  | cons p rest ih =>
      by_cases hpk : p.1 = k
      · exact ⟨p.2, by simp [jsGet, hpk]⟩
      · simp only [jsHas, Bool.or_eq_true, beq_iff_eq] at h
        rcases h with h | h
        · exact absurd h hpk
        · simpa [jsGet, hpk] using ih h

theorem jsHas_of_jsGet {α : Type} (m : List (String × α)) (k : String) (v : α)
    (h : jsGet m k = some v) : jsHas m k = true := by
  induction m with
  | nil => simp [jsGet] at h
  | cons p rest ih =>
      by_cases hpk : p.1 = k
      · simp [jsHas, hpk]
      · simp only [jsGet, hpk, if_false] at h
        simp [jsHas, hpk, ih h]

theorem jsHas_eq_false_iff {α : Type} (m : List (String × α)) (k : String) :
    jsHas m k = false ↔ jsGet m k = none := by
  constructor
  · intro h
    cases hg : jsGet m k with
    | none => rfl
    | some v => rw [jsHas_of_jsGet m k v hg] at h; cases h
  · intro h
    cases hh : jsHas m k with
    | false => rfl
    | true =>
        obtain ⟨v, hv⟩ := jsGet_of_jsHas m k hh
        rw [hv] at h; cases h

/-! ### The render scheduler (`Proto.render` / `Proto.renderTrack`)

src/Timeline.js lines 729-772.  The scheduler state is
`this.requestedTrack` (the track whose single-track redraw is pending,
or `null`) and `this.requestedFrame` (the animation-frame handle, `0`
when no frame was requested).  `requestFrame`/`cancelFrame` are the
browser's `requestAnimationFrame`/`cancelAnimationFrame`; they are
modelled by an id allocator plus the list of pending callbacks.  Browser
frame handles are never `0`; ids here start at `1`.  Tracks are
identified by their index (`Nat`); JS object identity (`===`) on tracks
becomes equality of identities. -/

/-- A pending animation-frame callback: `render.bind(this, stable)` or
`renderTrack.bind(this, track)`. -/
inductive Cb where
  | full (stable : Bool)
  | track (t : Nat)
deriving DecidableEq

/-- Scheduler state: the two fields of the Timeline plus the state of
the browser's frame queue. -/
structure Sched where
  requestedTrack : Option Nat
  requestedFrame : Nat
  nextId : Nat
  pending : List (Nat × Cb)
deriving DecidableEq

/-- The scheduler at rest (as initialised by the constructor:
`this.requestedTrack = null; this.requestedFrame = 0;`). -/
def Sched.emptySched : Sched := ⟨none, 0, 1, []⟩

/-- `requestFrame(cb)`: queue the callback, return its (nonzero) handle. -/
def Sched.requestFrame (s : Sched) (cb : Cb) : Nat × Sched :=
  (s.nextId, { s with nextId := s.nextId + 1, pending := s.pending ++ [(s.nextId, cb)] })

/-- `cancelFrame(id)`: drop the callback with that handle. -/
def Sched.cancelFrame (s : Sched) (id : Nat) : Sched :=
  { s with pending := s.pending.filter (fun p => !(p.1 == id)) }

/-- `Proto.render` (src/Timeline.js lines 765-772):
if a track redraw is pending, cancel its frame (and nothing else);
else if no frame is pending, request a full-render frame;
else (a full frame already pending) do nothing. -/
def Sched.render (s : Sched) (stable : Bool) : Sched :=
  if s.requestedTrack ≠ none then
    s.cancelFrame s.requestedFrame
  else if s.requestedFrame = 0 then
    let r := s.requestFrame (Cb.full stable)
    { r.2 with requestedTrack := none, requestedFrame := r.1 }
  else s

/-- `Proto.renderTrack` (src/Timeline.js lines 753-763):
if a frame is pending: same track → no-op, otherwise cancel it and
request `render.bind(this, true)`; if no frame is pending, request a
single-track frame for the track. -/
def Sched.renderTrack (s : Sched) (t : Nat) : Sched :=
  if s.requestedFrame ≠ 0 then
    if s.requestedTrack = some t then s
    else
      let s1 := s.cancelFrame s.requestedFrame
      let r := s1.requestFrame (Cb.full true)
      { r.2 with requestedTrack := none, requestedFrame := r.1 }
  else
    let r := s.requestFrame (Cb.track t)
    { r.2 with requestedTrack := some t, requestedFrame := r.1 }

/-- C1: with a single-track redraw pending, `render()` cancels the
pending track callback but schedules nothing in its place: the pending
queue is left empty while `requestedFrame` keeps the stale (cancelled)
handle and `requestedTrack` still names the track, so no drawing pass at
all runs on the next frame — contradicting the claim that the full
redraw executes in place of the track redraw. -/
theorem C1_render_after_renderTrack_schedules_nothing :
    (Sched.emptySched.renderTrack 0).pending = [(1, Cb.track 0)] ∧
    ((Sched.emptySched.renderTrack 0).render false).pending = [] ∧
    ((Sched.emptySched.renderTrack 0).render false).requestedFrame = 1 ∧
    ((Sched.emptySched.renderTrack 0).render false).requestedTrack = some 0 := by
  decide

/-- C2 counterexample: requesting a track redraw while a full frame is
pending is *not* a no-op.  From idle, `render()` queues a full
non-stable callback; `renderTrack(0)` then cancels that callback and
queues `render.bind(this, true)` instead — the scheduler state changes
and the pending drawing pass changes from a full redraw to a
stable-path redraw. -/
theorem C2_full_pending_not_noop :
    (Sched.emptySched.render false).renderTrack 0 ≠ Sched.emptySched.render false ∧
    (Sched.emptySched.render false).pending.map Prod.snd = [Cb.full false] ∧
    ((Sched.emptySched.render false).renderTrack 0).pending.map Prod.snd
      = [Cb.full true] := by
  decide

/-- C2 (amended): from an idle scheduler, requesting track `A` then a
different track `B` before the frame fires cancels the pending track
callback and leaves exactly one pending callback, a full-frame
(`render`, with `stable = true`) callback — not two track callbacks;
requesting the same track again is a no-op; and requesting a track
redraw while a full frame is pending is *not* a no-op: it cancels the
pending full-frame callback and schedules a fresh full-frame callback
with `stable = true` in its place. -/
theorem C2_renderTrack_coalescing (s : Sched) (A B : Nat)
    (hAB : A ≠ B) (hn : s.nextId ≠ 0)
    (hf : s.requestedFrame = 0) (ht : s.requestedTrack = none)
    (hp : s.pending = []) :
    (((s.renderTrack A).renderTrack B).pending.map Prod.snd = [Cb.full true] ∧
      ((s.renderTrack A).renderTrack B).requestedTrack = none) ∧
    ((s.renderTrack A).renderTrack A = s.renderTrack A) ∧
    (∀ st : Bool,
      ((s.render st).renderTrack A).pending.map Prod.snd = [Cb.full true] ∧
      ((s.render st).renderTrack A).requestedTrack = none ∧
      ((s.render st).renderTrack A).requestedFrame ≠ (s.render st).requestedFrame) := by
  refine ⟨⟨?_, ?_⟩, ?_, ?_⟩ <;>
    simp [Sched.render, Sched.renderTrack, Sched.requestFrame, Sched.cancelFrame,
      hf, ht, hp, hAB, hn]

/-- Witness for `C2_renderTrack_coalescing` at a concrete input. -/
theorem C2_renderTrack_coalescing_witness :
    ((Sched.emptySched.renderTrack 0).renderTrack 1).pending.map Prod.snd
      = [Cb.full true] ∧
    (Sched.emptySched.renderTrack 0).renderTrack 0
      = Sched.emptySched.renderTrack 0 := by
  have h := C2_renderTrack_coalescing Sched.emptySched 0 1 (by decide) (by decide)
    (by decide) (by decide) (by decide)
  exact ⟨h.1.1, h.2.1⟩

/-! ### The Timeline widget state

The fields of the `Timeline` instance that the remaining claims touch.
`currentTool`, the mouse flags and the drawing surfaces are not part of
the model: the tool/mouse-state guards of the event handlers are
reflected in which modelled operation applies (recorded in each
operation's doc comment), and drawing never mutates model state. -/

structure TL where
  tracks : List Track
  trackIndices : List (String × Nat)
  audio : List (String × AudioTrack)
  height : ℚ
  activeIndex : Int
  repeatA : Option ℚ
  repeatB : Option ℚ
  abRepeatOn : Bool
  abRepeatSetting : Bool
  viewStart : ℚ
  viewEnd : ℚ
  width : ℚ
  length : ℚ
  timeMarkerPos : ℚ
  selectedSegments : List Segment
deriving DecidableEq

/-- `Proto.trackHeight` (src/Timeline.js line 222). -/
def trackHeight : ℚ := 50
/-- `Proto.trackPadding` (line 223). -/
def trackPadding : ℚ := 10
/-- `Proto.sliderHeight` (line 224). -/
def sliderHeight : ℚ := 25
/-- `Proto.keyHeight` (line 228). -/
def keyHeight : ℚ := 25

/-- The widget as built by the `Timeline` constructor (lines 27-203):
no tracks, no audio, empty index map, repeat points `null`, AB repeat
off, playhead at `0`, view `[start, end]` (defaults `[0, 60]`), height
`keyHeight + trackPadding + sliderHeight`. -/
def initTL (w len s e : ℚ) : TL :=
  { tracks := [], trackIndices := [], audio := [],
    height := keyHeight + trackPadding + sliderHeight,
    activeIndex := -1,
    repeatA := none, repeatB := none,
    abRepeatOn := false, abRepeatSetting := false,
    viewStart := s, viewEnd := e, width := w, length := len,
    timeMarkerPos := 0, selectedSegments := [] }

/-! ### The view (`Timeline.View`)

The `View` class lives in a repository file outside src/; only its use
sites appear in src/Timeline.js.  The definitions below are modelled
from the spec, section 4.1. -/

/-- Modelled from the spec: `zoom` is a derived value
`(endTime − startTime) / widthPixels` (seconds per pixel). -/
def TL.zoom (tl : TL) : ℚ := (tl.viewEnd - tl.viewStart) / tl.width

/-- Modelled from the spec: `pixelToTime(x) = startTime + x*zoom`
(`Timeline.View` is not part of src/). -/
def TL.pixelToTime (tl : TL) (x : ℚ) : ℚ := tl.viewStart + x * tl.zoom

/-- Modelled from the spec: `timeToPixel(t) = (t − startTime) / zoom`
(`Timeline.View` is not part of src/). -/
def TL.timeToPixel (tl : TL) (t : ℚ) : ℚ := (t - tl.viewStart) / tl.zoom

/-- Modelled from the spec: `view.length` is the width of the visible
window in seconds. -/
def TL.viewLength (tl : TL) : ℚ := tl.viewEnd - tl.viewStart

/-- Modelled from the spec: `center(t)` "recenters the window on `t`
preserving width, clamped" so the window never exits `[0, length]`
(clamp by shifting, not resizing; `Timeline.View` is not part of
src/). -/
def TL.viewCenter (tl : TL) (t : ℚ) : TL :=
  let len := tl.viewLength
  let s := t - len / 2
  let e := t + len / 2
  if s < 0 then { tl with viewStart := 0, viewEnd := len }
  else if e > tl.length then
    { tl with viewStart := tl.length - len, viewEnd := tl.length }
  else { tl with viewStart := s, viewEnd := e }

/-! ### Track registry operations -/

/-- Modelled from the spec: `new Timeline.TextTrack(this, textTrack,
mime)` (the `TextTrack` wrapper is not part of src/) produces a track
handle whose unique string id is the text track's label. -/
def mkTextTrack (label : String) : Track :=
  { id := label, audioId := none, segments := [] }

/-- `swaptracks` (src/Timeline.js lines 405-411): replace the old track
in place at `trackIndices[n.id]` (the index map is untouched), emit
`removetrack` for the old track then `addtrack` for the new one.
(`n.render()` and `commandStack.removeEvents` do not touch the model
state.)  If `n.id` is not a key, the JS assignment writes a
non-numeric property and the array elements are unchanged. -/
def TL.swaptracks (tl : TL) (n o : Track) : TL × List Event :=
  (match jsGet tl.trackIndices n.id with
    | some k => { tl with tracks := tl.tracks.set k n }
    | none => tl,
   [Event.removetrack o.id, Event.addtrack n.id])

/-- `Proto.addTextTrack` (src/Timeline.js lines 417-433).  Throws
`"Track name already in use."` when the label is taken and `overwrite`
is unset; swaps in place when it is taken and `overwrite` is set;
otherwise appends the track, records its index, and grows the canvas
height by one track band. -/
def TL.addTextTrack (tl : TL) (label : String) (overwrite : Bool) :
    Except String (TL × List Event) :=
  if !overwrite && jsHas tl.trackIndices label then
    .error "Track name already in use."
  else
    let track := mkTextTrack label
    if jsHas tl.trackIndices label then
      .ok (tl.swaptracks track
        (tl.tracks.getD ((jsGet tl.trackIndices track.id).getD 0) default))
    else
      .ok ({ tl with
              trackIndices := jsSet tl.trackIndices track.id tl.tracks.length,
              tracks := tl.tracks ++ [track],
              height := tl.height + (trackHeight + trackPadding) },
           [Event.addtrack track.id])

/-- JS exception semantics for `addTextTrack`: a throw leaves the
widget unchanged (the check precedes every mutation). -/
def TL.addTextTrackT (tl : TL) (label : String) (overwrite : Bool) :
    TL × List Event :=
  match tl.addTextTrack label overwrite with
  | .ok r => r
  | .error _ => (tl, [])

/-- The reindexing loop of `Proto.removeTextTrack`
(`for(i=loc;t=this.tracks[i];i++){ this.trackIndices[t.id] = i; }`),
running over the post-splice suffix. -/
def reindexFrom (m : List (String × Nat)) (ts : List Track) (i : Nat) :
    List (String × Nat) :=
  match ts with
  | [] => m
  | t :: rest => reindexFrom (jsSet m t.id i) rest (i + 1)

/-- `Proto.removeTextTrack` (src/Timeline.js lines 435-457): no-op when
the id is unknown; otherwise decrement the removed track's audio
reference (if its `audioId` is loaded), splice the track out, delete
its index entry, renumber every subsequent track, shrink the height by
one track band, and emit `removetrack`. -/
def TL.removeTextTrack (tl : TL) (id : String) : TL × List Event :=
  match jsGet tl.trackIndices id with
  | none => (tl, [])
  | some loc =>
      let track := tl.tracks.getD loc default
      let audio' :=
        match track.audioId with
        | some aid =>
            if jsHas tl.audio aid then
              let a0 := (jsGet tl.audio aid).getD default
              jsSet tl.audio aid { a0 with references := a0.references - 1 }
            else tl.audio
        | none => tl.audio
      let tracks' := tl.tracks.eraseIdx loc
      let m' := reindexFrom (jsDel tl.trackIndices id) (tracks'.drop loc) loc
      ({ tl with tracks := tracks', trackIndices := m', audio := audio',
                 height := tl.height - (trackHeight + trackPadding) },
       [Event.removetrack track.id])

/-- `Proto.indexFromPos` (src/Timeline.js lines 392-403): walk the track
bands top to bottom and return the index of the band containing `y`, or
`-1`. -/
def indexFromPosFrom (count i : Nat) (top y : ℚ) : Int :=
  match count with
  | 0 => -1
  | c + 1 =>
      if top ≤ y ∧ y ≤ top + trackHeight then (i : Int)
      else indexFromPosFrom c (i + 1) (top + trackHeight + trackPadding) y

/-- `Proto.indexFromPos` entry point. -/
def TL.indexFromPos (tl : TL) (pos : Pos) : Int :=
  indexFromPosFrom tl.tracks.length 0 (keyHeight + trackPadding) pos.y

/-- The ORDER-tool branch of `mouseMove` (src/Timeline.js lines
1009-1024), reached when `currentTool == ORDER && activeIndex !== -1`:
swap the track under the pointer with the one at `activeIndex`, update
both index-map entries, and record the new active index. -/
def TL.mouseMoveOrder (tl : TL) (pos : Pos) : TL :=
  if tl.activeIndex = -1 then tl
  else
    let i := tl.indexFromPos pos
    if i ≠ -1 ∧ i ≠ tl.activeIndex then
      let j := i.toNat
      let a := tl.activeIndex.toNat
      let swap := tl.tracks.getD j default
      let active := tl.tracks.getD a default
      { tl with
          tracks := (tl.tracks.set j active).set a swap,
          trackIndices := jsSet (jsSet tl.trackIndices swap.id a) active.id j,
          activeIndex := i }
    else tl

/-- One complete ORDER-tool reorder gesture: `mouseDown` with the ORDER
tool records `activeIndex = indexFromPos(pos)` (line 1119), a
`mouseMove` performs the swap, and `mouseInactive` resets
`activeIndex = -1` (line 1057). -/
def TL.orderGesture (tl : TL) (p q : Pos) : TL :=
  let tl1 := { tl with activeIndex := tl.indexFromPos p }
  let tl2 := tl1.mouseMoveOrder q
  { tl2 with activeIndex := -1 }

/-! ### AB repeat -/

/-- `abRepeatSet` getter (src/Timeline.js lines 98-100):
`!(this.repeatA === null || this.repeatB === null)`. -/
def TL.abRepeatSet (tl : TL) : Bool :=
  !(tl.repeatA.isNone || tl.repeatB.isNone)

/-- The `abRepeatOn` setter (src/Timeline.js lines 101-112):
`on = this.abRepeatSet && (!!on)`; on a change, store it and emit
`abRepeatEnabled` / `abRepeatDisabled`. -/
def TL.setAbRepeatOn (tl : TL) (b : Bool) : TL × List Event :=
  let b := tl.abRepeatSet && b
  if tl.abRepeatOn ≠ b then
    ({ tl with abRepeatOn := b },
     [if b then Event.abRepeatEnabled else Event.abRepeatDisabled])
  else (tl, [])

/-- `updateABPoints` (src/Timeline.js lines 831-834): move `repeatA` if
the pointer is left of the pixel of the midpoint `(repeatA+repeatB)/2`,
else `repeatB`, to `pixelToTime(pos.x)`.  (JS arithmetic coerces a
`null` point to `0`; the callers guarantee both points are set.) -/
def TL.updateABPoints (tl : TL) (pos : Pos) : TL :=
  if pos.x < tl.timeToPixel ((tl.repeatA.getD 0 + tl.repeatB.getD 0) / 2) then
    { tl with repeatA := some (tl.pixelToTime pos.x) }
  else
    { tl with repeatB := some (tl.pixelToTime pos.x) }

/-- `resetABPoints` (src/Timeline.js lines 836-839): set both points to
the click time and emit `abRepeatSet`. -/
def TL.resetABPoints (tl : TL) (pos : Pos) : TL × List Event :=
  ({ tl with repeatA := some (tl.pixelToTime pos.x),
             repeatB := some (tl.pixelToTime pos.x) },
   [Event.abRepeatSet])

/-- `Proto.clearRepeat` (src/Timeline.js lines 841-849): null both
points, stop setting, force the enabled flag off through its setter,
emit `abRepeatUnset`. -/
def TL.clearRepeat (tl : TL) : TL × List Event :=
  let tl := { tl with repeatA := none, repeatB := none, abRepeatSetting := false }
  let r := if tl.abRepeatOn then tl.setAbRepeatOn false else (tl, [])
  (r.1, r.2 ++ [Event.abRepeatUnset])

/-- `Proto.setRepeat` (src/Timeline.js lines 851-859). -/
def TL.setRepeat (tl : TL) (s e : ℚ) : TL × List Event :=
  let tl := { tl with repeatA := some (min s e), repeatB := some (max s e),
                      abRepeatSetting := false }
  let r := if !tl.abRepeatOn then tl.setAbRepeatOn true else (tl, [])
  (r.1, r.2 ++ [Event.abRepeatSet])

/-- The REPEAT branch of `mouseDown` (src/Timeline.js lines 1111-1114):
start setting, then reset both points (no range yet) or move the nearer
point (range exists). -/
def TL.mouseDownRepeat (tl : TL) (pos : Pos) : TL × List Event :=
  let tl := { tl with abRepeatSetting := true }
  if tl.abRepeatSet then (tl.updateABPoints pos, []) else tl.resetABPoints pos

/-- The REPEAT branch of `mouseMove` (src/Timeline.js lines 1005-1008),
guarded by `currentTool == REPEAT && abRepeatSetting`. -/
def TL.mouseMoveRepeat (tl : TL) (pos : Pos) : TL :=
  if tl.abRepeatSetting then tl.updateABPoints pos else tl

/-- The REPEAT part of `mouseUp` (src/Timeline.js lines 1040-1043):
stop setting and drive the enabled flag through its setter with
`(this.repeatA !== this.repeatB)`. -/
def TL.mouseUpRepeat (tl : TL) : TL × List Event :=
  let tl := { tl with abRepeatSetting := false }
  tl.setAbRepeatOn (decide (tl.repeatA ≠ tl.repeatB))

/-! ### The `currentTime` setter -/

/-- The `currentTime` setter (src/Timeline.js lines 788-815): early out
on an unchanged time; AB-repeat wraparound past `repeatB` jumps to
`repeatA` (emitting `jump`); a time outside the view re-centers it on
`time ∓ view.length/4` (`stable` stays `false`), a time inside keeps
the view and only erases/redraws the playhead (`stable = true`); then
store the playhead, emit `timeupdate`, and call `render(stable)`.
Returns the state, the emitted events, and the `stable` flag passed to
`render` (`none` on the early-out path, which calls no render). -/
def TL.setCurrentTime (tl : TL) (time : ℚ) : TL × List Event × Option Bool :=
  if time = tl.timeMarkerPos then (tl, [], none)
  else
    let wrapped := tl.abRepeatOn ∧ time > tl.repeatB.getD 0
    let evs0 : List Event :=
      if wrapped then [Event.jump (tl.repeatA.getD 0)] else []
    let time := if wrapped then tl.repeatA.getD 0 else time
    let moved :=
      if time < tl.viewStart then (tl.viewCenter (time - tl.viewLength / 4), false)
      else if time > tl.viewEnd then (tl.viewCenter (time + tl.viewLength / 4), false)
      else (tl, true)
    ({ moved.1 with timeMarkerPos := time },
     evs0 ++ [Event.timeupdate time], some moved.2)

/-! ### Segment and audio insertion -/

/-- Modelled from the spec: `TextTrack.add(cue, select)` (the track
class is not part of src/) appends the cue to the track's segment
collection, selected when `select` is set. -/
def Track.add (track : Track) (cue : Cue) (select : Bool) : Track :=
  { track with segments :=
      track.segments ++ [⟨cue.startTime, cue.endTime, select⟩] }

/-- `Proto.addSegment` (src/Timeline.js lines 600-603): silently
returns when the track id is not registered, otherwise delegates to the
track's own `add`.  Fallible API operations are modelled in `Except`;
this one never produces `.error`. -/
def TL.addSegment (tl : TL) (tid : String) (cue : Cue) (select : Bool) :
    Except String (TL × List Event) :=
  if !(jsHas tl.trackIndices tid) then .ok (tl, [])
  else
    let k := (jsGet tl.trackIndices tid).getD 0
    .ok ({ tl with tracks :=
            tl.tracks.set k ((tl.tracks.getD k default).add cue select) }, [])

/-- The `wave` argument of `addAudioTrack`: either an existing
`Timeline.AudioTrack` instance or a raw waveform buffer (whose contents
the model does not need). -/
inductive Wave where
  | audio (a : AudioTrack)
  | raw
deriving DecidableEq

/-- `Proto.addAudioTrack` (src/Timeline.js lines 501-512): throw
`"Track with that id already loaded."` when the *passed* id is already
a key of `this.audio`; otherwise store the given `AudioTrack` under its
own id, or wrap a raw wave in a new `AudioTrack` (modelled from the
spec: the external constructor records the given id) stored under the
passed id; then request a redraw (the returned `Bool`). -/
def TL.addAudioTrack (tl : TL) (wave : Wave) (id : String) :
    Except String (TL × Bool) :=
  if jsHas tl.audio id then .error "Track with that id already loaded."
  else
    match wave with
    | .audio a => .ok ({ tl with audio := jsSet tl.audio a.id a }, true)
    | .raw => .ok ({ tl with audio := jsSet tl.audio id ⟨id, 0⟩ }, true)

/-- JS exception semantics for `addAudioTrack`: a throw leaves the
widget unchanged and requests no redraw. -/
def TL.addAudioTrackT (tl : TL) (wave : Wave) (id : String) : TL × Bool :=
  match tl.addAudioTrack wave id with
  | .ok r => r
  | .error _ => (tl, false)

/-! ### Rubber-band selection (`Selection.prototype.mouseUp`, dragged
branch, src/Timeline.js lines 1289-1316)

`track.visibleSegments` is a `TextTrack` accessor defined outside src/;
modelled from the spec ("for every segment in that track span …"): the
track's segments. -/

/-- JS `%` on a non-negative dividend and positive divisor:
`a - b*⌊a/b⌋`. -/
def jsMod (a b : ℚ) : ℚ := a - b * (⌊a / b⌋ : ℤ)

/-- The track-span computation of the dragged branch: the first index
`i` (round the offset down when it falls inside a track band, up when
it falls in the padding below one) and the last index `n` (the last
track when the rectangle's bottom reaches the slider strip, else the
band containing the bottom). -/
def TL.selSpan (tl : TL) (spos epos : Pos) : Int × Int :=
  let top := min spos.y epos.y
  let bottom := max spos.y epos.y
  let kheight := keyHeight + trackPadding
  let theight := trackHeight + trackPadding
  let i0 : ℚ := max 0 (top - kheight)
  let i : Int := if jsMod i0 theight < trackHeight then ⌊i0 / theight⌋ else ⌈i0 / theight⌉
  let n : Int :=
    if bottom ≥ tl.height - sliderHeight then (tl.tracks.length : Int) - 1
    else ⌊(bottom - kheight) / theight⌋
  (i, n)

/-- JS `Array.prototype.slice` index normalisation: a negative index
counts from the end (clamped at `0`), a non-negative one is clamped at
the length. -/
def sliceIdx (len : Nat) (z : Int) : Nat :=
  if z < 0 then ((len : Int) + z).toNat else min z.toNat len

/-- The skip condition of the hit test, negated:
`!(seg.selected || seg.startTime >= endTime || seg.endTime <= startTime)`. -/
def segHit (startT endT : ℚ) (seg : Segment) : Bool :=
  !(seg.selected || decide (seg.startTime ≥ endT) || decide (seg.endTime ≤ startT))

/-- Mark every hit segment of one track selected. -/
def selectSegs (startT endT : ℚ) (segs : List Segment) : List Segment :=
  segs.map (fun seg => if segHit startT endT seg then { seg with selected := true } else seg)

/-- Apply the per-track update to the tracks with index in `[lo, hi)`
(the `tracks.slice(i, n+1).forEach` iteration); `t0` is the index of
the head of `ts`. -/
def selectTracksFrom (startT endT : ℚ) (lo hi : Nat) (ts : List Track) (t0 : Nat) :
    List Track :=
  match ts with
  | [] => []
  | tr :: rest =>
      (if lo ≤ t0 ∧ t0 < hi then { tr with segments := selectSegs startT endT tr.segments }
       else tr) :: selectTracksFrom startT endT lo hi rest (t0 + 1)

/-- The `select` events emitted for one track's segments, `s0` being
the index of the head of `segs`. -/
def segSelectEventsFrom (t : Nat) (startT endT : ℚ) (segs : List Segment) (s0 : Nat) :
    List Event :=
  match segs with
  | [] => []
  | seg :: rest =>
      (if segHit startT endT seg then [Event.select t s0] else [])
        ++ segSelectEventsFrom t startT endT rest (s0 + 1)

/-- The `select` events emitted across the track span. -/
def spanEventsFrom (startT endT : ℚ) (lo hi : Nat) (ts : List Track) (t0 : Nat) :
    List Event :=
  match ts with
  | [] => []
  | tr :: rest =>
      (if lo ≤ t0 ∧ t0 < hi then segSelectEventsFrom t0 startT endT tr.segments 0 else [])
        ++ spanEventsFrom startT endT lo hi rest (t0 + 1)

/-- The segment values pushed onto `tl.selectedSegments`. -/
def newlySelectedFrom (startT endT : ℚ) (lo hi : Nat) (ts : List Track) (t0 : Nat) :
    List Segment :=
  match ts with
  | [] => []
  | tr :: rest =>
      (if lo ≤ t0 ∧ t0 < hi then tr.segments.filter (segHit startT endT) else [])
        ++ newlySelectedFrom startT endT lo hi rest (t0 + 1)

/-- The dragged branch of `Selection.prototype.mouseUp`
(src/Timeline.js lines 1289-1316): project the rectangle to a time
range and a track-index span, and for every not-yet-selected segment of
a spanned track whose time range overlaps `(startTime, endTime)`, mark
it selected, push it onto `selectedSegments`, and emit `select`. -/
def TL.selectionMouseUpDrag (tl : TL) (spos epos : Pos) : TL × List Event :=
  let startT := tl.pixelToTime (min spos.x epos.x)
  let endT := tl.pixelToTime (max spos.x epos.x)
  let span := tl.selSpan spos epos
  let lo := sliceIdx tl.tracks.length span.1
  let hi := sliceIdx tl.tracks.length (span.2 + 1)
  ({ tl with
      tracks := selectTracksFrom startT endT lo hi tl.tracks 0,
      selectedSegments :=
        tl.selectedSegments ++ newlySelectedFrom startT endT lo hi tl.tracks 0 },
   spanEventsFrom startT endT lo hi tl.tracks 0)

/-! ### Helper lemmas about the embedded operations -/

theorem setAbRepeatOn_spec (tl : TL) (b : Bool) :
    (tl.setAbRepeatOn b).1.abRepeatOn = (tl.abRepeatSet && b) ∧
    (tl.setAbRepeatOn b).1.repeatA = tl.repeatA ∧
    (tl.setAbRepeatOn b).1.repeatB = tl.repeatB := by
  by_cases h : tl.abRepeatOn ≠ (tl.abRepeatSet && b)
  · simp [TL.setAbRepeatOn, h]
  · simp [TL.setAbRepeatOn, h]
    exact not_ne_iff.mp h

theorem viewCenter_proj (tl : TL) (t : ℚ) :
    (tl.viewCenter t).repeatA = tl.repeatA ∧
    (tl.viewCenter t).repeatB = tl.repeatB ∧
    (tl.viewCenter t).abRepeatOn = tl.abRepeatOn ∧
    (tl.viewCenter t).abRepeatSetting = tl.abRepeatSetting := by
  refine ⟨?_, ?_, ?_, ?_⟩ <;>
    · unfold TL.viewCenter
      dsimp only
      split
      · rfl
      · split <;> rfl

theorem setCurrentTime_preserves_repeat (tl : TL) (t : ℚ) :
    (tl.setCurrentTime t).1.repeatA = tl.repeatA ∧
    (tl.setCurrentTime t).1.repeatB = tl.repeatB ∧
    (tl.setCurrentTime t).1.abRepeatOn = tl.abRepeatOn := by
  refine ⟨?_, ?_, ?_⟩ <;>
    · unfold TL.setCurrentTime
      dsimp only
      repeat' split
      all_goals first
        | rfl
        | exact (viewCenter_proj tl _).1
        | exact (viewCenter_proj tl _).2.1
        | exact (viewCenter_proj tl _).2.2.1

/-! ### C4: the AB-repeat enabled/points invariant -/

/-- The operations that read or write the AB-repeat state: the
`abRepeatOn` setter, `clearRepeat`, `setRepeat`, the REPEAT
pointer-down / drag / pointer-up handlers, and the `currentTime` setter
(which applies the wraparound).  No other operation of src/Timeline.js
writes `repeatA`, `repeatB` or `abRepeatOn`. -/
inductive ABOp where
  | setOn (b : Bool)
  | clear
  | setRange (a b : ℚ)
  | mdown (p : Pos)
  | mmove (p : Pos)
  | mup
  | setTime (t : ℚ)
deriving DecidableEq

def applyABOp (tl : TL) : ABOp → TL
  | .setOn b => (tl.setAbRepeatOn b).1
  | .clear => tl.clearRepeat.1
  | .setRange a b => (tl.setRepeat a b).1
  | .mdown p => (tl.mouseDownRepeat p).1
  | .mmove p => tl.mouseMoveRepeat p
  | .mup => tl.mouseUpRepeat.1
  | .setTime t => (tl.setCurrentTime t).1

def applyABOps (tl : TL) (ops : List ABOp) : TL := ops.foldl applyABOp tl

/-- The AB-repeat invariant: the enabled flag is only ever true when
both repeat points are set. -/
def ABInv (tl : TL) : Prop := tl.abRepeatOn = true → tl.abRepeatSet = true

theorem ABInv_applyABOp (tl : TL) (op : ABOp) (h : ABInv tl) :
    ABInv (applyABOp tl op) := by
  cases op with
  | setTime t =>
      intro hon
      obtain ⟨h1, h2, h3⟩ := setCurrentTime_preserves_repeat tl t
      rw [applyABOp] at hon ⊢
      rw [h3] at hon
      simp only [ABInv, TL.abRepeatSet] at *
      rw [h1, h2]
      exact h hon
  | setOn b =>
      intro hon
      simp only [ABInv] at h
      simp only [applyABOp, TL.setAbRepeatOn, TL.abRepeatSet] at hon ⊢
      repeat' split at hon
      all_goals repeat' split
      all_goals simp_all [TL.abRepeatSet]
  | clear =>
      intro hon
      simp only [ABInv] at h
      simp only [applyABOp, TL.clearRepeat, TL.setAbRepeatOn,
        TL.abRepeatSet] at hon ⊢
      repeat' split at hon
      all_goals repeat' split
      all_goals simp_all [TL.abRepeatSet]
  | setRange a b =>
      intro hon
      simp only [ABInv] at h
      simp only [applyABOp, TL.setRepeat, TL.setAbRepeatOn,
        TL.abRepeatSet] at hon ⊢
      repeat' split at hon
      all_goals repeat' split
      all_goals simp_all [TL.abRepeatSet]
  | mdown p =>
      intro hon
      simp only [ABInv] at h
      simp only [applyABOp, TL.mouseDownRepeat, TL.updateABPoints,
        TL.resetABPoints, TL.abRepeatSet] at hon ⊢
      repeat' split at hon
      all_goals repeat' split
      all_goals simp_all [TL.abRepeatSet]
  | mmove p =>
      intro hon
      simp only [ABInv] at h
      simp only [applyABOp, TL.mouseMoveRepeat, TL.updateABPoints,
        TL.abRepeatSet] at hon ⊢
      repeat' split at hon
      all_goals repeat' split
      all_goals simp_all [TL.abRepeatSet]
  | mup =>
      intro hon
      simp only [ABInv] at h
      simp only [applyABOp, TL.mouseUpRepeat, TL.setAbRepeatOn,
        TL.abRepeatSet] at hon ⊢
      repeat' split at hon
      all_goals repeat' split
      all_goals simp_all [TL.abRepeatSet]

theorem ABInv_applyABOps (ops : List ABOp) (tl : TL) (h : ABInv tl) :
    ABInv (applyABOps tl ops) := by
  induction ops generalizing tl with
  | nil => exact h
  | cons op rest ih =>
      rw [applyABOps, List.foldl_cons]
      exact ih _ (ABInv_applyABOp tl op h)

/-- C4: after any sequence of AB-repeat-touching operations from the
constructor state, `abRepeatOn = true` implies both repeat points are
set (`abRepeatSet`): the setter coerces assignments to `false` unless
both points exist, and `clearRepeat` forces the flag off while nulling
the points, so the invariant holds at every operation boundary (hence
at every prefix of the history, in particular at every event
emission between operations). -/
theorem C4_abRepeatOn_implies_points_set (w len s e : ℚ) (ops : List ABOp) :
    ABInv (applyABOps (initTL w len s e) ops) :=
  ABInv_applyABOps ops _ (fun hon => by cases hon)

/-! ### Concrete widget states used by witnesses -/

/-- A fresh widget: `width = 600`, `length = 1800`, view `[0, 60]`
(zoom `0.1` s/px). -/
def tlEmpty : TL := initTL 600 1800 0 60

/-- `tlEmpty` after the REPEAT-tool pointer-down at pixel `x = 100`
(time `10`). -/
def tlRep1 : TL := (tlEmpty.mouseDownRepeat ⟨100, 50⟩).1

/-- `tlRep1` after dragging to pixel `x = 200` (time `20`). -/
def tlRep2 : TL := tlRep1.mouseMoveRepeat ⟨200, 50⟩

/-- `tlRep2` after pointer-up. -/
def tlRep3 : TL := tlRep2.mouseUpRepeat.1

/-- C6: REPEAT-tool pointer handling.  (i) pointer-down with no range
set resets both points to the click time and emits `abRepeatSet`;
(ii) pointer-down or drag with a range set moves `repeatA` exactly when
the pointer is left of the pixel of the range midpoint, else `repeatB`;
(iii) pointer-up finalises `enabled = (repeatA ≠ repeatB)` (the points
are both set or both null in every reachable state) and stops the
setting mode; (iv) the scenario: click at time 10, drag to time 20,
release, yields `repeatA = 10`, `repeatB = 20`, `enabled = true`. -/
theorem C6_repeat_tool (tl : TL) (p : Pos) :
    (tl.abRepeatSet = false →
      (tl.mouseDownRepeat p).1.repeatA = some (tl.pixelToTime p.x) ∧
      (tl.mouseDownRepeat p).1.repeatB = some (tl.pixelToTime p.x) ∧
      (tl.mouseDownRepeat p).2 = [Event.abRepeatSet]) ∧
    (tl.abRepeatSet = true →
      ((tl.mouseDownRepeat p).1 =
        (if p.x < tl.timeToPixel ((tl.repeatA.getD 0 + tl.repeatB.getD 0) / 2) then
          { tl with abRepeatSetting := true, repeatA := some (tl.pixelToTime p.x) }
        else
          { tl with abRepeatSetting := true, repeatB := some (tl.pixelToTime p.x) })) ∧
      (tl.abRepeatSetting = true →
        tl.mouseMoveRepeat p =
          (if p.x < tl.timeToPixel ((tl.repeatA.getD 0 + tl.repeatB.getD 0) / 2) then
            { tl with repeatA := some (tl.pixelToTime p.x) }
          else
            { tl with repeatB := some (tl.pixelToTime p.x) }))) ∧
    (tl.repeatA.isNone = tl.repeatB.isNone →
      tl.mouseUpRepeat.1.abRepeatOn = decide (tl.repeatA ≠ tl.repeatB) ∧
      tl.mouseUpRepeat.1.abRepeatSetting = false) ∧
    (tlRep3.repeatA = some 10 ∧ tlRep3.repeatB = some 20 ∧
      tlRep3.abRepeatOn = true) := by
  refine ⟨?_, ?_, ?_, ?_⟩
  · intro h
    simp only [TL.mouseDownRepeat, TL.resetABPoints]
    try dsimp only
    split
    · rename_i hc
      rw [show TL.abRepeatSet tl = true from hc] at h
      cases h
    · exact ⟨rfl, rfl, rfl⟩
  · intro h
    constructor
    · simp only [TL.mouseDownRepeat, TL.updateABPoints, TL.timeToPixel,
        TL.pixelToTime, TL.zoom]
      try dsimp only
      split
      · split <;> rfl
      · rename_i hc
        exact absurd (show TL.abRepeatSet tl = true from h) hc
    · intro hset
      simp only [TL.mouseMoveRepeat, TL.updateABPoints, TL.timeToPixel,
        TL.pixelToTime, TL.zoom, hset, if_true]
  · intro hmix
    constructor
    · obtain ⟨h1, _, _⟩ := setAbRepeatOn_spec { tl with abRepeatSetting := false }
        (decide (tl.repeatA ≠ tl.repeatB))
      simp only [TL.mouseUpRepeat]
      try dsimp only
      rw [h1]
      simp only [TL.abRepeatSet]
      try dsimp only
      cases hA : tl.repeatA <;> cases hB : tl.repeatB <;> simp_all
    · simp only [TL.mouseUpRepeat, TL.setAbRepeatOn]
      try dsimp only
      split <;> rfl
  · norm_num [tlRep3, tlRep2, tlRep1, tlEmpty, initTL, TL.mouseDownRepeat,
      TL.mouseMoveRepeat, TL.mouseUpRepeat, TL.updateABPoints,
      TL.resetABPoints, TL.setAbRepeatOn, TL.abRepeatSet, TL.pixelToTime,
      TL.timeToPixel, TL.zoom, Option.getD]

/-- A widget with an AB range `[10, 20]` already set. -/
def tlAB : TL := { tlEmpty with repeatA := some 10, repeatB := some 20 }

/-- Witness for `C6_repeat_tool`: at `tlEmpty` (no range set), a
pointer-down at pixel 100 (time 10) sets both points to 10, and at
`tlAB` (range `[10, 20]`) a pointer-up enables the repeat. -/
theorem C6_repeat_tool_witness :
    (tlEmpty.mouseDownRepeat ⟨100, 50⟩).1.repeatA = some 10 ∧
    tlAB.mouseUpRepeat.1.abRepeatOn = true := by
  constructor
  · have h := ((C6_repeat_tool tlEmpty ⟨100, 50⟩).1 (by decide)).1
    rw [h]
    norm_num [tlEmpty, initTL, TL.pixelToTime, TL.zoom]
  · have h := ((C6_repeat_tool tlAB ⟨0, 0⟩).2.2.1 (by decide)).1
    rw [h]
    norm_num [tlAB, tlEmpty, initTL]

/-! ### C7: duplicate track label -/

/-- `tlEmpty` with one track labelled `"en"` at index 0. -/
def tlEn : TL := (tlEmpty.addTextTrackT "en" false).1

/-- C7: `addTextTrack` with a label already registered (at index `k`)
throws `"Track name already in use."` when `overwrite` is unset,
leaving the whole widget (tracks, index map, height) unchanged; with
`overwrite` it replaces the old track in place at index `k` — the
tracks list is only changed by `List.set k`, so no other track shifts,
and the index map and height are untouched — and emits `removetrack`
(old track) then `addtrack` (new track). -/
theorem C7_addTrack_duplicate_label (tl : TL) (label : String) (k : Nat)
    (hk : jsGet tl.trackIndices label = some k) :
    tl.addTextTrack label false = .error "Track name already in use." ∧
    tl.addTextTrackT label false = (tl, []) ∧
    tl.addTextTrack label true =
      .ok ({ tl with tracks := tl.tracks.set k (mkTextTrack label) },
           [Event.removetrack (tl.tracks.getD k default).id,
            Event.addtrack label]) := by
  have hh : jsHas tl.trackIndices label = true :=
    jsHas_of_jsGet _ _ _ hk
  refine ⟨?_, ?_, ?_⟩
  · simp [TL.addTextTrack, hh]
  · simp [TL.addTextTrackT, TL.addTextTrack, hh]
  · simp [TL.addTextTrack, TL.swaptracks, hh, hk, mkTextTrack]

/-- Witness for `C7_addTrack_duplicate_label` at `tlEn` (label `"en"`
registered at index 0). -/
theorem C7_addTrack_duplicate_label_witness :
    tlEn.addTextTrack "en" false = .error "Track name already in use." ∧
    tlEn.addTextTrack "en" true =
      .ok ({ tlEn with tracks := tlEn.tracks.set 0 (mkTextTrack "en") },
           [Event.removetrack "en", Event.addtrack "en"]) := by
  have h := C7_addTrack_duplicate_label tlEn "en" 0 (by decide)
  have hid : (tlEn.tracks.getD 0 default).id = "en" := by decide
  have h2 := h.2.2
  rw [hid] at h2
  exact ⟨h.1, h2⟩

/-! ### C8: the `currentTime` paths -/

/-- C8 counterexample: on the fresh widget (`length = 1800`, view
`[0, 60]`), setting `currentTime = 90` re-centers the view on
`90 + 60/4 = 105`, giving `[75, 135]` — not `[60, 120]` as the claim
states. -/
theorem C8_recenter_counterexample :
    (tlEmpty.setCurrentTime 90).1.viewStart = 75 ∧
    (tlEmpty.setCurrentTime 90).1.viewEnd = 135 ∧
    ¬((tlEmpty.setCurrentTime 90).1.viewStart = 60 ∧
      (tlEmpty.setCurrentTime 90).1.viewEnd = 120) := by
  norm_num [tlEmpty, initTL, TL.setCurrentTime, TL.viewCenter, TL.viewLength]

/-- C8 (amended): a `currentTime` inside the view keeps `viewStart` and
`viewEnd` unchanged, passes `stable = true` to `render` (only the
playhead is redrawn), and emits exactly `timeupdate`; concretely,
`currentTime = 30` on the fresh widget keeps the view `[0, 60]`.  A
`currentTime` outside the view re-centers it on `time + view.length/4`:
`currentTime = 90` yields the view `[75, 135]` (not `[60, 120]`) with
`stable = false`, and also emits `timeupdate`. -/
theorem C8_currentTime_paths (tl : TL) (t : ℚ)
    (hab : tl.abRepeatOn = false) (hne : t ≠ tl.timeMarkerPos)
    (h1 : tl.viewStart ≤ t) (h2 : t ≤ tl.viewEnd) :
    tl.setCurrentTime t =
      ({ tl with timeMarkerPos := t }, [Event.timeupdate t], some true) ∧
    (tlEmpty.setCurrentTime 30).1.viewStart = 0 ∧
    (tlEmpty.setCurrentTime 30).1.viewEnd = 60 ∧
    (tlEmpty.setCurrentTime 30).1.timeMarkerPos = 30 ∧
    (tlEmpty.setCurrentTime 30).2 = ([Event.timeupdate 30], some true) ∧
    (tlEmpty.setCurrentTime 90).1.viewStart = 75 ∧
    (tlEmpty.setCurrentTime 90).1.viewEnd = 135 ∧
    (tlEmpty.setCurrentTime 90).2 = ([Event.timeupdate 90], some false) := by
  refine ⟨?_, ?_, ?_, ?_, ?_, ?_, ?_, ?_⟩
  · have hlt1 : ¬(t < tl.viewStart) := not_lt.mpr h1
    have hlt2 : ¬(t > tl.viewEnd) := not_lt.mpr h2
    simp [TL.setCurrentTime, hne, hab, hlt1, hlt2]
  all_goals
    norm_num [tlEmpty, initTL, TL.setCurrentTime, TL.viewCenter, TL.viewLength]

/-- Witness for `C8_currentTime_paths` at `tlEmpty`, `t = 45`. -/
theorem C8_currentTime_paths_witness :
    tlEmpty.setCurrentTime 45 =
      ({ tlEmpty with timeMarkerPos := 45 }, [Event.timeupdate 45], some true) :=
  (C8_currentTime_paths tlEmpty 45 (by decide)
    (by norm_num [tlEmpty, initTL])
    (by norm_num [tlEmpty, initTL])
    (by norm_num [tlEmpty, initTL])).1

/-! ### C9: `addSegment` with an unknown track id -/

/-- C9 counterexample: `addSegment` on a widget with no tracks and an
unregistered id `"en"` signals no error at all — it returns normally
with the widget unchanged — whereas the claim says a non-recoverable
input error is signalled to the caller. -/
theorem C9_addSegment_unknown_id_no_error :
    tlEmpty.addSegment "en" ⟨0, 1⟩ false = .ok (tlEmpty, []) := by
  simp [TL.addSegment, tlEmpty, initTL, jsHas]

/-- C9 (amended): `addSegment` with an unregistered track id silently
returns, signalling nothing; the widget state is left unchanged (no
segment is added to any track). -/
theorem C9_addSegment_unknown_id_silent (tl : TL) (tid : String) (cue : Cue)
    (sel : Bool) (h : jsHas tl.trackIndices tid = false) :
    tl.addSegment tid cue sel = .ok (tl, []) := by
  simp [TL.addSegment, h]

/-- Witness for `C9_addSegment_unknown_id_silent` at a widget with one
track `"en"` and the unknown id `"fr"`. -/
theorem C9_addSegment_unknown_id_silent_witness :
    tlEn.addSegment "fr" ⟨2, 3⟩ true = .ok (tlEn, []) :=
  C9_addSegment_unknown_id_silent tlEn "fr" ⟨2, 3⟩ true (by decide)

/-! ### C10: `addAudioTrack` -/

/-- C10: `addAudioTrack` with an id already present in the audio table
throws `"Track with that id already loaded."` and leaves the widget
(in particular the audio table) unchanged, requesting no redraw; with a
fresh id it stores the audio track — under the waveform's own id when
an `AudioTrack` instance is passed, under the passed id (wrapping the
raw wave) otherwise — and requests a redraw. -/
theorem C10_addAudioTrack_spec (tl : TL) (wave : Wave) (id : String) :
    (jsHas tl.audio id = true →
      tl.addAudioTrack wave id = .error "Track with that id already loaded." ∧
      tl.addAudioTrackT wave id = (tl, false)) ∧
    (jsHas tl.audio id = false →
      ∀ a, wave = Wave.audio a →
        tl.addAudioTrack wave id =
          .ok ({ tl with audio := jsSet tl.audio a.id a }, true)) ∧
    (jsHas tl.audio id = false →
      wave = Wave.raw →
        tl.addAudioTrack wave id =
          .ok ({ tl with audio := jsSet tl.audio id ⟨id, 0⟩ }, true)) := by
  refine ⟨fun h => ?_, fun h a ha => ?_, fun h hr => ?_⟩
  · exact ⟨by simp [TL.addAudioTrack, h],
      by simp [TL.addAudioTrackT, TL.addAudioTrack, h]⟩
  · subst ha
    simp [TL.addAudioTrack, h]
  · subst hr
    simp [TL.addAudioTrack, h]

/-- Witness for `C10_addAudioTrack_spec`: a widget whose audio table
holds id `"a"` rejects a second load under `"a"` and accepts one under
`"b"`. -/
theorem C10_addAudioTrack_spec_witness :
    ({ tlEmpty with audio := [("a", ⟨"a", 0⟩)] } : TL).addAudioTrack .raw "a"
        = .error "Track with that id already loaded." ∧
    ({ tlEmpty with audio := [("a", ⟨"a", 0⟩)] } : TL).addAudioTrack .raw "b"
        = .ok ({ tlEmpty with
                  audio := jsSet [("a", ⟨"a", 0⟩)] "b" ⟨"b", 0⟩ }, true) := by
  constructor
  · exact ((C10_addAudioTrack_spec _ .raw "a").1 (by decide)).1
  · exact (C10_addAudioTrack_spec { tlEmpty with audio := [("a", ⟨"a", 0⟩)] }
      .raw "b").2.2 (by decide) rfl

/-! ### C3: the track registry invariant -/

/-- The position of the first track in `ts` whose id is `k`. -/
def idIndex (ts : List Track) (k : String) : Option Nat :=
  match ts with
  | [] => none
  | t :: rest => if t.id = k then some 0 else (idIndex rest k).map (· + 1)

theorem idIndex_eq_none {ts : List Track} {k : String} (h : idIndex ts k = none)
    (j : Nat) (hj : j < ts.length) : ts[j].id ≠ k := by
  induction ts generalizing j with
  | nil => cases hj
  | cons t rest ih =>
      simp only [idIndex] at h
      by_cases ht : t.id = k
      · simp [ht] at h
      · cases j with
        | zero => simpa using ht
        | succ n =>
            have hr : idIndex rest k = none := by
              cases hr : idIndex rest k with
              | none => rfl
              | some p => rw [hr] at h; simp [ht] at h
            have hn : n < rest.length := by simpa using hj
            simp only [List.getElem_cons_succ]
            exact ih hr n hn

theorem idIndex_eq_some {ts : List Track} {k : String} {p : Nat}
    (h : idIndex ts k = some p) :
    ∃ hp : p < ts.length, ts[p].id = k := by
  induction ts generalizing p with
  | nil => cases h
  | cons t rest ih =>
      simp only [idIndex] at h
      by_cases ht : t.id = k
      · simp only [ht, if_true, Option.some.injEq] at h
        subst h
        exact ⟨by simp, ht⟩
      · simp only [ht, if_false] at h
        cases hr : idIndex rest k with
        | none => rw [hr] at h; cases h
        | some q =>
            rw [hr] at h
            simp only [Option.map_some', Option.some.injEq] at h
            subst h
            obtain ⟨hq, hid⟩ := ih hr
            exact ⟨by simpa using Nat.succ_lt_succ hq, by simpa using hid⟩

theorem idIndex_getElem {ts : List Track} (hnd : (ts.map Track.id).Nodup)
    {p : Nat} (hp : p < ts.length) :
    idIndex ts (ts[p].id) = some p := by
  induction ts generalizing p with
  | nil => cases hp
  | cons t rest ih =>
      have hnd2 : (rest.map Track.id).Nodup := by
        simp only [List.map_cons, List.nodup_cons] at hnd
        exact hnd.2
      have hmem : t.id ∉ rest.map Track.id := by
        simp only [List.map_cons, List.nodup_cons] at hnd
        exact hnd.1
      cases p with
      | zero => simp [idIndex]
      | succ n =>
          have hn : n < rest.length := by simpa using hp
          have ht : ¬ t.id = rest[n].id := by
            intro he
            exact hmem (he ▸ List.mem_map_of_mem Track.id (List.getElem_mem hn))
          simp only [idIndex, List.getElem_cons_succ]
          rw [if_neg ht, ih hnd2 hn]
          rfl

theorem jsGet_reindexFrom (ts : List Track) (m : List (String × Nat)) (i : Nat)
    (k : String) (hnd : (ts.map Track.id).Nodup) :
    jsGet (reindexFrom m ts i) k =
      (match idIndex ts k with
        | some p => some (i + p)
        | none => jsGet m k) := by
  induction ts generalizing m i with
  | nil => simp [reindexFrom, idIndex]
  | cons t rest ih =>
      have hnd2 : (rest.map Track.id).Nodup := by
        simp only [List.map_cons, List.nodup_cons] at hnd
        exact hnd.2
      have hmem : t.id ∉ rest.map Track.id := by
        simp only [List.map_cons, List.nodup_cons] at hnd
        exact hnd.1
      simp only [reindexFrom]
      rw [ih (jsSet m t.id i) (i + 1) hnd2]
      by_cases ht : t.id = k
      · subst ht
        have hnone : idIndex rest t.id = none := by
          cases hr : idIndex rest t.id with
          | none => rfl
          | some p =>
              obtain ⟨hp, hid⟩ := idIndex_eq_some hr
              exact absurd (hid ▸ List.mem_map_of_mem Track.id (List.getElem_mem hp))
                hmem
        rw [hnone]
        simp [idIndex, jsGet_jsSet]
      · have hne : ¬ k = t.id := fun hc => ht hc.symm
        simp only [idIndex, ht, if_false]
        cases hr : idIndex rest k with
        | none => simp [jsGet_jsSet, hne]
        | some p =>
            simp only [Option.map_some', Option.some.injEq]
            omega

/-- The registry invariant: the id→index map is exactly the inverse of
the ordered track array — every track's id maps to its position, and
every key of the map names the track sitting at the mapped position. -/
def RegInv (tl : TL) : Prop :=
  (∀ j (hj : j < tl.tracks.length),
      jsGet tl.trackIndices (tl.tracks[j]).id = some j) ∧
  (∀ id j, jsGet tl.trackIndices id = some j →
      ∃ hj : j < tl.tracks.length, (tl.tracks[j]).id = id)

theorem RegInv.inj {tl : TL} (h : RegInv tl) {i j : Nat}
    (hi : i < tl.tracks.length) (hj : j < tl.tracks.length)
    (hid : (tl.tracks[i]).id = (tl.tracks[j]).id) : i = j := by
  have h1 := h.1 i hi
  have h2 := h.1 j hj
  rw [hid] at h1
  rw [h1] at h2
  exact (Option.some.injEq _ _ ▸ h2).symm ▸ rfl

theorem nodup_of_getElem_inj {L : List String}
    (h : ∀ i j (hi : i < L.length) (hj : j < L.length), L[i] = L[j] → i = j) :
    L.Nodup := by
  rw [List.nodup_iff_injective_get]
  intro a b hab
  have := h a.1 b.1 a.2 b.2 (by simpa [List.get_eq_getElem] using hab)
  exact Fin.ext this

theorem RegInv.ids_nodup {tl : TL} (h : RegInv tl) :
    (tl.tracks.map Track.id).Nodup := by
  apply nodup_of_getElem_inj
  intro i j hi hj hij
  rw [List.length_map] at hi hj
  apply h.inj hi hj
  simpa using hij

theorem RegInv_addTextTrackT (tl : TL) (label : String) (ow : Bool)
    (h : RegInv tl) : RegInv (tl.addTextTrackT label ow).1 := by
  by_cases hhas : jsHas tl.trackIndices label = true
  · obtain ⟨k0, hk0⟩ := jsGet_of_jsHas _ _ hhas
    obtain ⟨hk0lt, hk0id⟩ := h.2 _ _ hk0
    cases ow with
    | false =>
        simp only [TL.addTextTrackT, TL.addTextTrack, hhas, Bool.not_false,
          Bool.true_and, if_true]
        exact h
    | true =>
        simp only [TL.addTextTrackT, TL.addTextTrack, TL.swaptracks, hhas,
          Bool.not_true, Bool.false_and, Bool.false_eq_true, if_false, if_true,
          mkTextTrack, hk0, Option.getD_some]
        constructor
        · intro j hj
          rw [List.length_set] at hj
          by_cases hjk : j = k0
          · subst hjk
            rw [List.getElem_set_self (by simpa using hj)]
            exact hk0
          · rw [List.getElem_set_ne (fun hc => hjk hc.symm) _]
            exact h.1 j hj
        · intro id j hj
          obtain ⟨hlt, hid⟩ := h.2 id j hj
          refine ⟨by simpa using hlt, ?_⟩
          by_cases hjk : j = k0
          · subst hjk
            rw [List.getElem_set_self (by simpa using hlt)]
            show label = id
            rw [← hid, hk0id]
          · rw [List.getElem_set_ne (fun hc => hjk hc.symm) _]
            exact hid
  · have hfalse : jsHas tl.trackIndices label = false := by simpa using hhas
    have hbranch : (tl.addTextTrackT label ow).1 =
        { tl with
            trackIndices := jsSet tl.trackIndices label tl.tracks.length,
            tracks := tl.tracks ++ [mkTextTrack label],
            height := tl.height + (trackHeight + trackPadding) } := by
      cases ow <;>
        simp [TL.addTextTrackT, TL.addTextTrack, hfalse, mkTextTrack]
    rw [hbranch]
    constructor
    · intro j hj
      simp only [List.length_append, List.length_singleton] at hj
      by_cases hjl : j < tl.tracks.length
      · rw [List.getElem_append_left hjl]
        rw [jsGet_jsSet]
        have hne : tl.tracks[j].id ≠ label := by
          intro he
          have h1 := h.1 j hjl
          rw [he] at h1
          have h2 := jsHas_of_jsGet _ _ _ h1
          rw [hfalse] at h2
          cases h2
        rw [if_neg hne]
        exact h.1 j hjl
      · have hj0 : j = tl.tracks.length := by omega
        subst hj0
        rw [List.getElem_concat_length _ _ _ rfl _]
        simp [mkTextTrack, jsGet_jsSet]
    · intro id j hj
      rw [jsGet_jsSet] at hj
      by_cases hid : id = label
      · rw [if_pos hid] at hj
        have hj0 : j = tl.tracks.length := by
          simpa using hj.symm
        subst hj0
        refine ⟨by simp, ?_⟩
        rw [List.getElem_concat_length _ _ _ rfl _, hid]
        rfl
      · rw [if_neg hid] at hj
        obtain ⟨hlt, hgid⟩ := h.2 id j hj
        refine ⟨by simp only [List.length_append, List.length_singleton]; omega, ?_⟩
        rw [List.getElem_append_left hlt]
        exact hgid

theorem RegInv_removeTextTrack (tl : TL) (id : String) (h : RegInv tl) :
    RegInv (tl.removeTextTrack id).1 := by
  cases hloc : jsGet tl.trackIndices id with
  | none =>
      simp only [TL.removeTextTrack, hloc]
      exact h
  | some loc =>
      obtain ⟨hloclt, hlocid⟩ := h.2 _ _ hloc
      simp only [TL.removeTextTrack, hloc]
      have hnd : (tl.tracks.map Track.id).Nodup := h.ids_nodup
      have hnd2 : ((tl.tracks.eraseIdx loc).map Track.id).Nodup :=
        hnd.sublist ((List.eraseIdx_sublist _ _).map _)
      have hndsuf : (((tl.tracks.eraseIdx loc).drop loc).map Track.id).Nodup :=
        hnd2.sublist ((List.drop_sublist _ _).map _)
      have hlen : (tl.tracks.eraseIdx loc).length = tl.tracks.length - 1 := by
        rw [List.length_eraseIdx]
        simp [hloclt]
      have hm : ∀ k,
          jsGet (reindexFrom (jsDel tl.trackIndices id)
            ((tl.tracks.eraseIdx loc).drop loc) loc) k =
          (match idIndex ((tl.tracks.eraseIdx loc).drop loc) k with
            | some p => some (loc + p)
            | none => if k = id then none else jsGet tl.trackIndices k) := by
        intro k
        rw [jsGet_reindexFrom _ _ _ _ hndsuf]
        cases idIndex ((tl.tracks.eraseIdx loc).drop loc) k with
        | some p => rfl
        | none =>
            dsimp only
            rw [jsGet_jsDel]
      constructor
      · intro j hj
        have hj2 : j < (tl.tracks.eraseIdx loc).length := hj
        show jsGet (reindexFrom (jsDel tl.trackIndices id)
            ((tl.tracks.eraseIdx loc).drop loc) loc)
            ((tl.tracks.eraseIdx loc)[j]).id = some j
        rw [hm]
        by_cases hjloc : j < loc
        · have hjlt : j < tl.tracks.length := by omega
          have hidj : (tl.tracks.eraseIdx loc)[j].id = tl.tracks[j].id := by
            rw [List.getElem_eraseIdx, dif_pos hjloc]
          have hnone : idIndex ((tl.tracks.eraseIdx loc).drop loc)
              ((tl.tracks.eraseIdx loc)[j]).id = none := by
            cases hI : idIndex ((tl.tracks.eraseIdx loc).drop loc)
                ((tl.tracks.eraseIdx loc)[j]).id with
            | none => rfl
            | some p =>
                obtain ⟨hp, hpid⟩ := idIndex_eq_some hI
                have hp2 : loc + p < (tl.tracks.eraseIdx loc).length := by
                  rw [List.length_drop] at hp
                  omega
                have hsame : (tl.tracks.eraseIdx loc)[loc + p].id
                    = (tl.tracks.eraseIdx loc)[j].id := by
                  rw [← hpid, List.getElem_drop]
                have hb : loc + p + 1 < tl.tracks.length := by omega
                have heq1 : (tl.tracks.eraseIdx loc)[loc + p]
                    = tl.tracks[loc + p + 1] := by
                  rw [List.getElem_eraseIdx, dif_neg (by omega)]
                rw [heq1, hidj] at hsame
                have := h.inj (by omega) hjlt hsame
                omega
          rw [hnone]
          dsimp only
          have hne : ¬ (tl.tracks.eraseIdx loc)[j].id = id := by
            rw [hidj, ← hlocid]
            intro he
            have := h.inj hjlt hloclt he
            omega
          rw [if_neg hne, hidj]
          exact h.1 j hjlt
        · have hp : j - loc < ((tl.tracks.eraseIdx loc).drop loc).length := by
            rw [List.length_drop]
            omega
          have hsufj : ((tl.tracks.eraseIdx loc).drop loc)[j - loc]
              = (tl.tracks.eraseIdx loc)[j] := by
            rw [List.getElem_drop]
            congr 1
            omega
          have hI : idIndex ((tl.tracks.eraseIdx loc).drop loc)
              ((tl.tracks.eraseIdx loc)[j]).id = some (j - loc) := by
            rw [← hsufj]
            exact idIndex_getElem hndsuf hp
          rw [hI]
          dsimp only
          congr 1
          omega
      · intro k j hj
        rw [hm] at hj
        cases hI : idIndex ((tl.tracks.eraseIdx loc).drop loc) k with
        | some p =>
            rw [hI] at hj
            dsimp only at hj
            obtain ⟨hp, hpid⟩ := idIndex_eq_some hI
            have hj2 : j = loc + p := by
              injection hj with hj
              omega
            subst hj2
            have hjlt : loc + p < (tl.tracks.eraseIdx loc).length := by
              rw [List.length_drop] at hp
              omega
            refine ⟨hjlt, ?_⟩
            rw [← List.getElem_drop (tl.tracks.eraseIdx loc)]
            exact hpid
        | none =>
            rw [hI] at hj
            dsimp only at hj
            by_cases hk : k = id
            · rw [if_pos hk] at hj
              cases hj
            · rw [if_neg hk] at hj
              obtain ⟨hlt, hgid⟩ := h.2 k j hj
              have hjne : j ≠ loc := fun he => hk (by subst he; exact hgid.symm.trans hlocid)
              by_cases hjloc : j < loc
              · refine ⟨show j < (tl.tracks.eraseIdx loc).length by omega, ?_⟩
                rw [List.getElem_eraseIdx, dif_pos hjloc]
                exact hgid
              · have hp : j - 1 - loc < ((tl.tracks.eraseIdx loc).drop loc).length := by
                  rw [List.length_drop, hlen]
                  omega
                have hsufj : ((tl.tracks.eraseIdx loc).drop loc)[j - 1 - loc]
                    = tl.tracks[j] := by
                  rw [List.getElem_drop, List.getElem_eraseIdx,
                    dif_neg (by omega)]
                  congr 1
                  omega
                have hIc : idIndex ((tl.tracks.eraseIdx loc).drop loc) k
                    = some (j - 1 - loc) := by
                  rw [← hgid, ← hsufj]
                  exact idIndex_getElem hndsuf hp
                rw [hI] at hIc
                cases hIc

theorem indexFromPosFrom_bound (count i : Nat) (top y : ℚ) :
    indexFromPosFrom count i top y = -1 ∨
    ∃ j : Nat, indexFromPosFrom count i top y = (j : Int) ∧ i ≤ j ∧ j < i + count := by
  induction count generalizing i top with
  | zero => exact Or.inl rfl
  | succ c ih =>
      simp only [indexFromPosFrom]
      split
      · exact Or.inr ⟨i, rfl, le_refl _, by omega⟩
      · rcases ih (i + 1) (top + trackHeight + trackPadding) with h | ⟨j, hj, hij, hjc⟩
        · exact Or.inl h
        · exact Or.inr ⟨j, hj, by omega, by omega⟩

theorem indexFromPos_bound (tl : TL) (pos : Pos) :
    tl.indexFromPos pos = -1 ∨
    ∃ j : Nat, tl.indexFromPos pos = (j : Int) ∧ j < tl.tracks.length := by
  rcases indexFromPosFrom_bound tl.tracks.length 0 (keyHeight + trackPadding) pos.y
    with h | ⟨j, hj, _, hjc⟩
  · exact Or.inl h
  · exact Or.inr ⟨j, hj, by omega⟩

theorem RegInv_swap (tl : TL) (j a : Nat) (hj : j < tl.tracks.length)
    (ha : a < tl.tracks.length) (hja : j ≠ a) (h : RegInv tl) (ai : Int) :
    RegInv { tl with
      tracks := (tl.tracks.set j (tl.tracks.getD a default)).set a
        (tl.tracks.getD j default),
      trackIndices := jsSet (jsSet tl.trackIndices (tl.tracks.getD j default).id a)
        (tl.tracks.getD a default).id j,
      activeIndex := ai } := by
  have hgj : tl.tracks.getD j default = tl.tracks[j] := List.getD_eq_getElem _ _ hj
  have hga : tl.tracks.getD a default = tl.tracks[a] := List.getD_eq_getElem _ _ ha
  have hid : tl.tracks[j].id ≠ tl.tracks[a].id := fun he => hja (h.inj hj ha he)
  rw [hgj, hga]
  constructor
  · intro idx hidx
    have hidx2 : idx < tl.tracks.length := by simpa using hidx
    have hb : idx < ((tl.tracks.set j tl.tracks[a]).set a tl.tracks[j]).length := by
      simpa using hidx2
    show jsGet (jsSet (jsSet tl.trackIndices (tl.tracks[j]).id a) (tl.tracks[a]).id j)
        ((((tl.tracks.set j tl.tracks[a]).set a tl.tracks[j])[idx]).id) = some idx
    by_cases hia : idx = a
    · have he1 : ((tl.tracks.set j tl.tracks[a]).set a tl.tracks[j])[idx]
          = tl.tracks[j] := by
        subst hia
        exact List.getElem_set_self (by simpa using hidx2)
      rw [he1, jsGet_jsSet, if_neg hid, jsGet_jsSet, if_pos rfl, hia]
    · by_cases hij : idx = j
      · have he1 : ((tl.tracks.set j tl.tracks[a]).set a tl.tracks[j])[idx]
            = tl.tracks[a] := by
          subst hij
          rw [List.getElem_set_ne (fun hc => hia hc.symm) _]
          exact List.getElem_set_self (by simpa using hidx2)
        rw [he1, jsGet_jsSet, if_pos rfl, hij]
      · have he1 : ((tl.tracks.set j tl.tracks[a]).set a tl.tracks[j])[idx]
            = tl.tracks[idx] := by
          rw [List.getElem_set_ne (fun hc => hia hc.symm) _,
            List.getElem_set_ne (fun hc => hij hc.symm) _]
        rw [he1, jsGet_jsSet]
        rw [if_neg (fun hc => hia (h.inj hidx2 ha hc)), jsGet_jsSet,
          if_neg (fun hc => hij (h.inj hidx2 hj hc))]
        exact h.1 idx hidx2
  · intro k n hkn
    rw [jsGet_jsSet] at hkn
    by_cases hk1 : k = tl.tracks[a].id
    · rw [if_pos hk1] at hkn
      have hn : n = j := by injection hkn with hkn; omega
      subst hn
      have hb : n < ((tl.tracks.set n tl.tracks[a]).set a tl.tracks[n]).length := by
        simpa using hj
      refine ⟨by simpa using hj, ?_⟩
      show (((tl.tracks.set n tl.tracks[a]).set a tl.tracks[n])[n]).id = k
      have he1 : ((tl.tracks.set n tl.tracks[a]).set a tl.tracks[n])[n]
          = tl.tracks[a] := by
        rw [List.getElem_set_ne (fun hc => hja (hc.symm.trans rfl)) _]
        exact List.getElem_set_self (by simpa using hj)
      rw [he1, hk1]
    · rw [if_neg hk1, jsGet_jsSet] at hkn
      by_cases hk2 : k = tl.tracks[j].id
      · rw [if_pos hk2] at hkn
        have hn : n = a := by injection hkn with hkn; omega
        subst hn
        have hb : n < ((tl.tracks.set j tl.tracks[n]).set n tl.tracks[j]).length := by
          simpa using ha
        refine ⟨by simpa using ha, ?_⟩
        show (((tl.tracks.set j tl.tracks[n]).set n tl.tracks[j])[n]).id = k
        have he1 : ((tl.tracks.set j tl.tracks[n]).set n tl.tracks[j])[n]
            = tl.tracks[j] := List.getElem_set_self (by simpa using ha)
        rw [he1, hk2]
      · rw [if_neg hk2] at hkn
        obtain ⟨hlt, hgid⟩ := h.2 k n hkn
        have hna : n ≠ a := fun he => hk1 (by subst he; exact hgid.symm)
        have hnj : n ≠ j := fun he => hk2 (by subst he; exact hgid.symm)
        have hb : n < ((tl.tracks.set j tl.tracks[a]).set a tl.tracks[j]).length := by
          simpa using hlt
        refine ⟨by simpa using hlt, ?_⟩
        show (((tl.tracks.set j tl.tracks[a]).set a tl.tracks[j])[n]).id = k
        have he1 : ((tl.tracks.set j tl.tracks[a]).set a tl.tracks[j])[n]
            = tl.tracks[n] := by
          rw [List.getElem_set_ne (fun hc => hna hc.symm) _,
            List.getElem_set_ne (fun hc => hnj hc.symm) _]
        rw [he1]
        exact hgid

theorem RegInv_orderGesture (tl : TL) (p q : Pos) (h : RegInv tl) :
    RegInv (tl.orderGesture p q) := by
  have hred : ∀ (v : Int) (r : Pos),
      TL.indexFromPos { tl with activeIndex := v } r = tl.indexFromPos r :=
    fun v r => rfl
  unfold TL.orderGesture TL.mouseMoveOrder
  dsimp only
  simp only [hred]
  split
  · exact h
  · rename_i hact
    split
    · rename_i hcond
      obtain ⟨hi1, hi2⟩ := hcond
      rcases indexFromPos_bound tl q with hq | ⟨j, hjq, hjlt⟩
      · exact absurd hq hi1
      · rcases indexFromPos_bound tl p with hp | ⟨a, hap, halt⟩
        · exact absurd hp hact
        · have hja : j ≠ a := by
            intro he
            subst he
            exact hi2 (hjq.trans hap.symm)
          rw [hjq, hap]
          simp only [Int.toNat_natCast]
          exact RegInv_swap tl j a hjlt halt hja h _
    · exact h

/-- The registry operations of C3: `addTextTrack` (with or without
overwrite — the overwrite-swap), `removeTextTrack`, and one ORDER-tool
reorder gesture (pointer-down at `p`, drag to `q`, release). -/
inductive RegOp where
  | add (label : String) (overwrite : Bool)
  | remove (id : String)
  | order (p q : Pos)

def applyRegOp (tl : TL) : RegOp → TL
  | .add label ow => (tl.addTextTrackT label ow).1
  | .remove id => (tl.removeTextTrack id).1
  | .order p q => tl.orderGesture p q

def applyRegOps (tl : TL) (ops : List RegOp) : TL := ops.foldl applyRegOp tl

theorem RegInv_applyRegOp (tl : TL) (op : RegOp) (h : RegInv tl) :
    RegInv (applyRegOp tl op) := by
  cases op with
  | add label ow => exact RegInv_addTextTrackT tl label ow h
  | remove id => exact RegInv_removeTextTrack tl id h
  | order p q => exact RegInv_orderGesture tl p q h

theorem RegInv_applyRegOps (ops : List RegOp) (tl : TL) (h : RegInv tl) :
    RegInv (applyRegOps tl ops) := by
  induction ops generalizing tl with
  | nil => exact h
  | cons op rest ih =>
      rw [applyRegOps, List.foldl_cons]
      exact ih _ (RegInv_applyRegOp tl op h)

theorem RegInv_initTL (w len s e : ℚ) : RegInv (initTL w len s e) := by
  constructor
  · intro j hj
    cases hj
  · intro id j hj
    cases hj

/-- C3: after any sequence of track add, remove, overwrite-swap and
ORDER-tool reorder operations from the constructor state, the
id→index map is exactly the inverse of the ordered track array
(`RegInv`); and removing the track registered at index `loc` leaves
exactly the spliced array `tracks.eraseIdx loc` — every subsequent
track is renumbered down by one, relative order preserved — with every
remaining track's id again mapping to its position. -/
theorem C3_trackIndices_inverse (w len s e : ℚ) (ops : List RegOp) (id : String)
    (loc : Nat) :
    RegInv (applyRegOps (initTL w len s e) ops) ∧
    (jsGet (applyRegOps (initTL w len s e) ops).trackIndices id = some loc →
      ((applyRegOps (initTL w len s e) ops).removeTextTrack id).1.tracks
          = (applyRegOps (initTL w len s e) ops).tracks.eraseIdx loc ∧
      ∀ j (hj : j <
          (((applyRegOps (initTL w len s e) ops).removeTextTrack id).1.tracks).length),
        jsGet (((applyRegOps (initTL w len s e) ops).removeTextTrack id).1).trackIndices
          (((((applyRegOps (initTL w len s e) ops).removeTextTrack id).1.tracks)[j]).id)
          = some j) := by
  have hinv : RegInv (applyRegOps (initTL w len s e) ops) :=
    RegInv_applyRegOps ops _ (RegInv_initTL w len s e)
  refine ⟨hinv, fun hloc => ⟨?_, ?_⟩⟩
  · simp [TL.removeTextTrack, hloc]
  · exact (RegInv_removeTextTrack _ id hinv).1

/-- Three adds then a removal of the middle track. -/
def regOps0 : List RegOp := [.add "a" false, .add "b" false, .add "c" false]

/-- Witness for `C3_trackIndices_inverse`: with tracks `a, b, c`,
removing `"b"` (registered at index 1) splices the array to `a, c`. -/
theorem C3_trackIndices_inverse_witness :
    jsGet (applyRegOps (initTL 600 1800 0 60) regOps0).trackIndices "b" = some 1 ∧
    ((applyRegOps (initTL 600 1800 0 60) regOps0).removeTextTrack "b").1.tracks
      = (applyRegOps (initTL 600 1800 0 60) regOps0).tracks.eraseIdx 1 := by
  refine ⟨by decide, ((C3_trackIndices_inverse 600 1800 0 60 regOps0 "b" 1).2
    (by decide)).1⟩

/-! ### C5: the rubber-band hit test, characterised -/

theorem length_selectTracksFrom (st et : ℚ) (lo hi : Nat) (L : List Track)
    (t0 : Nat) : (selectTracksFrom st et lo hi L t0).length = L.length := by
  induction L generalizing t0 with
  | nil => rfl
  | cons tr rest ih => simp [selectTracksFrom, ih]

theorem selectTracksFrom_getElem (st et : ℚ) (lo hi : Nat) (L : List Track)
    (t0 k : Nat) (hk : k < L.length)
    (hk2 : k < (selectTracksFrom st et lo hi L t0).length) :
    (selectTracksFrom st et lo hi L t0)[k] =
      (if lo ≤ t0 + k ∧ t0 + k < hi then
        { L[k] with segments := selectSegs st et (L[k]).segments }
      else L[k]) := by
  induction L generalizing t0 k with
  | nil => cases hk
  | cons tr rest ih =>
      cases k with
      | zero => simp [selectTracksFrom]
      | succ n =>
          have hn : n < rest.length := by simpa using hk
          have hn2 : n < (selectTracksFrom st et lo hi rest (t0 + 1)).length := by
            rw [length_selectTracksFrom]
            exact hn
          have := ih (t0 + 1) n hn hn2
          simp only [selectTracksFrom, List.getElem_cons_succ]
          rw [this]
          have harith : t0 + 1 + n = t0 + (n + 1) := by omega
          rw [harith]

theorem selectSegs_getElem (st et : ℚ) (segs : List Segment) (s : Nat)
    (hs : s < segs.length) (hs2 : s < (selectSegs st et segs).length) :
    (selectSegs st et segs)[s] =
      (if segHit st et segs[s] then { segs[s] with selected := true }
       else segs[s]) := by
  simp [selectSegs]

theorem count_segSelectEventsFrom_lt (t : Nat) (st et : ℚ) (segs : List Segment)
    (s0 m : Nat) (hm : m < s0) :
    (segSelectEventsFrom t st et segs s0).count (Event.select t m) = 0 := by
  induction segs generalizing s0 with
  | nil => rfl
  | cons seg rest ih =>
      simp only [segSelectEventsFrom, List.count_append]
      rw [ih (s0 + 1) (by omega)]
      split
      · have h2 : ¬ s0 = m := by omega
        simp [List.count_cons, Event.select.injEq, h2]
      · simp

theorem count_segSelectEventsFrom_ne (t u : Nat) (st et : ℚ)
    (segs : List Segment) (s0 m : Nat) (hne : u ≠ t) :
    (segSelectEventsFrom t st et segs s0).count (Event.select u m) = 0 := by
  induction segs generalizing s0 with
  | nil => rfl
  | cons seg rest ih =>
      simp only [segSelectEventsFrom, List.count_append]
      rw [ih (s0 + 1)]
      split
      · simp only [List.count_cons, List.count_nil, beq_iff_eq, Event.select.injEq]
        have : ¬(t = u ∧ s0 = m) := fun hc => hne hc.1.symm
        simp [this]
      · rfl

theorem count_segSelectEventsFrom (t : Nat) (st et : ℚ) (segs : List Segment)
    (s0 s : Nat) (hs : s < segs.length) :
    (segSelectEventsFrom t st et segs s0).count (Event.select t (s0 + s)) =
      (if segHit st et segs[s] then 1 else 0) := by
  induction segs generalizing s0 s with
  | nil => cases hs
  | cons seg rest ih =>
      cases s with
      | zero =>
          simp only [segSelectEventsFrom, List.count_append, Nat.add_zero,
            List.getElem_cons_zero]
          rw [count_segSelectEventsFrom_lt t st et rest (s0 + 1) s0 (by omega)]
          split
          · simp
          · rfl
      | succ n =>
          have hn : n < rest.length := by simpa using hs
          have harith : s0 + (n + 1) = (s0 + 1) + n := by omega
          simp only [segSelectEventsFrom, List.count_append,
            List.getElem_cons_succ, harith]
          rw [ih (s0 + 1) n hn]
          split
          · have h2 : ¬ s0 = s0 + 1 + n := by omega
            simp [List.count_cons, Event.select.injEq, h2]
          · simp

theorem count_spanEventsFrom_lt (st et : ℚ) (lo hi : Nat) (L : List Track)
    (t0 t s : Nat) (h : t < t0) :
    (spanEventsFrom st et lo hi L t0).count (Event.select t s) = 0 := by
  induction L generalizing t0 with
  | nil => rfl
  | cons tr rest ih =>
      simp only [spanEventsFrom, List.count_append]
      rw [ih (t0 + 1) (by omega)]
      split
      · rw [count_segSelectEventsFrom_ne t0 t st et tr.segments 0 s (by omega)]
      · rfl

theorem count_spanEventsFrom (st et : ℚ) (lo hi : Nat) (L : List Track)
    (t0 d : Nat) (hd : d < L.length) (s : Nat)
    (hs : s < ((L[d]).segments).length) :
    (spanEventsFrom st et lo hi L t0).count (Event.select (t0 + d) s) =
      (if (lo ≤ t0 + d ∧ t0 + d < hi) ∧ segHit st et ((L[d]).segments[s])
       then 1 else 0) := by
  induction L generalizing t0 d with
  | nil => cases hd
  | cons tr rest ih =>
      cases d with
      | zero =>
          simp only [spanEventsFrom, List.count_append, Nat.add_zero,
            List.getElem_cons_zero] at hs ⊢
          rw [count_spanEventsFrom_lt st et lo hi rest (t0 + 1) t0 s (by omega)]
          split
          · rename_i hc
            have := count_segSelectEventsFrom t0 st et tr.segments 0 s hs
            rw [Nat.zero_add] at this
            rw [this]
            by_cases hhit : segHit st et (tr.segments[s]) = true
            · simp [hc, hhit]
            · simp only [Bool.not_eq_true] at hhit
              simp [hc, hhit]
          · rename_i hc
            have : ¬((lo ≤ t0 ∧ t0 < hi) ∧
                segHit st et (tr.segments[s]) = true) := fun hx => hc hx.1
            simp [this]
      | succ n =>
          have hn : n < rest.length := by simpa using hd
          have hs2 : s < ((rest[n]).segments).length := by
            simpa using hs
          have harith : t0 + (n + 1) = (t0 + 1) + n := by omega
          simp only [spanEventsFrom, List.count_append,
            List.getElem_cons_succ] at hs ⊢
          rw [harith, ih (t0 + 1) n hn hs2]
          by_cases hc : lo ≤ t0 ∧ t0 < hi
          · rw [if_pos hc, count_segSelectEventsFrom_ne t0 (t0 + 1 + n) st et
              tr.segments 0 s (by omega)]
            simp
          · rw [if_neg hc]
            simp

theorem selectionMouseUpDrag_eq (tl : TL) (spos epos : Pos) :
    tl.selectionMouseUpDrag spos epos =
      ({ tl with
          tracks := selectTracksFrom (tl.pixelToTime (min spos.x epos.x))
            (tl.pixelToTime (max spos.x epos.x))
            (sliceIdx tl.tracks.length (tl.selSpan spos epos).1)
            (sliceIdx tl.tracks.length ((tl.selSpan spos epos).2 + 1))
            tl.tracks 0,
          selectedSegments := tl.selectedSegments ++
            newlySelectedFrom (tl.pixelToTime (min spos.x epos.x))
              (tl.pixelToTime (max spos.x epos.x))
              (sliceIdx tl.tracks.length (tl.selSpan spos epos).1)
              (sliceIdx tl.tracks.length ((tl.selSpan spos epos).2 + 1))
              tl.tracks 0 },
       spanEventsFrom (tl.pixelToTime (min spos.x epos.x))
         (tl.pixelToTime (max spos.x epos.x))
         (sliceIdx tl.tracks.length (tl.selSpan spos epos).1)
         (sliceIdx tl.tracks.length ((tl.selSpan spos epos).2 + 1))
         tl.tracks 0) := rfl

theorem selectTracksFrom_getD (st et : ℚ) (lo hi : Nat) (L : List Track)
    (t0 k : Nat) (hk : k < L.length) :
    (selectTracksFrom st et lo hi L t0).getD k default =
      (if lo ≤ t0 + k ∧ t0 + k < hi then
        { L.getD k default with segments := selectSegs st et (L.getD k default).segments }
      else L.getD k default) := by
  have hk2 : k < (selectTracksFrom st et lo hi L t0).length := by
    rw [length_selectTracksFrom]
    exact hk
  rw [List.getD_eq_getElem _ _ hk2, List.getD_eq_getElem _ _ hk,
    selectTracksFrom_getElem st et lo hi L t0 k hk hk2]

theorem selectSegs_getD (st et : ℚ) (segs : List Segment) (s : Nat)
    (hs : s < segs.length) :
    (selectSegs st et segs).getD s default =
      (if segHit st et (segs.getD s default)
       then { segs.getD s default with selected := true }
       else segs.getD s default) := by
  have hs2 : s < (selectSegs st et segs).length := by
    simpa [selectSegs] using hs
  rw [List.getD_eq_getElem _ _ hs2, List.getD_eq_getElem _ _ hs,
    selectSegs_getElem st et segs s hs hs2]

/-- C5: the rubber-band release (dragged).  The tracks whose index lies
in the span `[lo, hi)` computed from the rectangle's vertical extent
(`selSpan` rounds the top offset down inside a track band and up inside
the padding below one, and clamps the bottom to the last track when it
reaches the slider strip) have exactly those of their segments whose
time range overlaps the open interval
`(pixelToTime (min x), pixelToTime (max x))` and which were not already
selected marked selected; each such segment gets exactly one `select`
notification (count 1), every other (track, segment) position gets none
(count 0), and no segment outside the span or time range changes (the
track and segment lists keep their lengths, and every position is
either the old segment or the old segment with `selected := true`). -/
theorem C5_rubber_band_selection (tl : TL) (spos epos : Pos) (t s : Nat)
    (ht : t < tl.tracks.length) (hs : s < ((tl.tracks.getD t default).segments).length) :
    (tl.selectionMouseUpDrag spos epos).1.tracks.length = tl.tracks.length ∧
    (((tl.selectionMouseUpDrag spos epos).1.tracks.getD t default).segments).length
      = ((tl.tracks.getD t default).segments).length ∧
    (((tl.selectionMouseUpDrag spos epos).1.tracks.getD t default).segments).getD s default =
      (if (sliceIdx tl.tracks.length (tl.selSpan spos epos).1 ≤ t ∧
            t < sliceIdx tl.tracks.length ((tl.selSpan spos epos).2 + 1)) ∧
          segHit (tl.pixelToTime (min spos.x epos.x))
            (tl.pixelToTime (max spos.x epos.x))
            (((tl.tracks.getD t default).segments).getD s default)
        then { ((tl.tracks.getD t default).segments).getD s default with selected := true }
        else ((tl.tracks.getD t default).segments).getD s default) ∧
    ((tl.selectionMouseUpDrag spos epos).2.count (Event.select t s) =
      (if (sliceIdx tl.tracks.length (tl.selSpan spos epos).1 ≤ t ∧
            t < sliceIdx tl.tracks.length ((tl.selSpan spos epos).2 + 1)) ∧
          segHit (tl.pixelToTime (min spos.x epos.x))
            (tl.pixelToTime (max spos.x epos.x))
            (((tl.tracks.getD t default).segments).getD s default)
        then 1 else 0)) := by
  refine ⟨?_, ?_, ?_, ?_⟩
  · rw [selectionMouseUpDrag_eq]
    exact length_selectTracksFrom _ _ _ _ _ _
  · rw [selectionMouseUpDrag_eq]
    dsimp only
    rw [selectTracksFrom_getD _ _ _ _ tl.tracks 0 t ht]
    split
    · simp [selectSegs]
    · rfl
  · rw [selectionMouseUpDrag_eq]
    dsimp only
    rw [selectTracksFrom_getD _ _ _ _ tl.tracks 0 t ht]
    rw [Nat.zero_add]
    split
    · rename_i hc
      show (selectSegs (tl.pixelToTime (min spos.x epos.x))
          (tl.pixelToTime (max spos.x epos.x))
          ((tl.tracks.getD t default).segments)).getD s default = _
      rw [selectSegs_getD _ _ _ s hs]
      by_cases hhit : segHit (tl.pixelToTime (min spos.x epos.x))
          (tl.pixelToTime (max spos.x epos.x))
          (((tl.tracks.getD t default).segments).getD s default) = true
      · rw [if_pos hhit, if_pos ⟨hc, hhit⟩]
      · rw [if_neg hhit, if_neg (fun hx => hhit hx.2)]
    · rename_i hc
      rw [if_neg (fun hx => hc hx.1)]
  · rw [selectionMouseUpDrag_eq]
    dsimp only
    have hs2 : s < ((tl.tracks[t]).segments).length := by
      rw [← List.getD_eq_getElem tl.tracks default ht]
      exact hs
    have hcnt := count_spanEventsFrom (tl.pixelToTime (min spos.x epos.x))
      (tl.pixelToTime (max spos.x epos.x))
      (sliceIdx tl.tracks.length (tl.selSpan spos epos).1)
      (sliceIdx tl.tracks.length ((tl.selSpan spos epos).2 + 1))
      tl.tracks 0 t ht s hs2
    rw [Nat.zero_add] at hcnt
    rw [hcnt, List.getD_eq_getElem tl.tracks default ht,
      List.getD_eq_getElem _ default hs2]

/-- A widget with two stacked tracks: `"en"` with three segments
(`[0,5]` and `[10,20]` unselected, `[30,40]` selected) and `"fr"` with
one; `height = 60 + 2*(trackHeight + trackPadding) = 180`. -/
def tlSel : TL :=
  { tlEmpty with
      height := 180,
      tracks := [
        { id := "en", audioId := none,
          segments := [⟨0, 5, false⟩, ⟨10, 20, false⟩, ⟨30, 40, true⟩] },
        { id := "fr", audioId := none, segments := [⟨12, 18, false⟩] }],
      trackIndices := [("en", 0), ("fr", 1)] }

/-- Witness for `C5_rubber_band_selection`: dragging from pixel
`(100, 40)` to `(200, 80)` on `tlSel` projects to the time range
`(10, 20)` and the track span `{0}`; the overlapping unselected segment
`[10, 20]` of track 0 gets exactly one `select` event, and the
already-selected `[30, 40]` gets none. -/
theorem C5_rubber_band_selection_witness :
    (tlSel.selectionMouseUpDrag ⟨100, 40⟩ ⟨200, 80⟩).2.count (Event.select 0 1) = 1 ∧
    (tlSel.selectionMouseUpDrag ⟨100, 40⟩ ⟨200, 80⟩).2.count (Event.select 0 2) = 0 := by
  have h1 := (C5_rubber_band_selection tlSel ⟨100, 40⟩ ⟨200, 80⟩ 0 1
    (by decide) (by decide)).2.2.2
  have h2 := (C5_rubber_band_selection tlSel ⟨100, 40⟩ ⟨200, 80⟩ 0 2
    (by decide) (by decide)).2.2.2
  rw [h1, h2]
  have hf1 : (⌊(5 : ℚ) / 60⌋ : ℤ) = 0 := by norm_num [Int.floor_eq_iff]
  have hf2 : (⌊(45 : ℚ) / 60⌋ : ℤ) = 0 := by norm_num [Int.floor_eq_iff]
  have hspan : tlSel.selSpan ⟨100, 40⟩ ⟨200, 80⟩ = (0, 0) := by
    norm_num [TL.selSpan, jsMod, tlSel, tlEmpty, initTL, keyHeight,
      trackPadding, trackHeight, sliderHeight, min_def, max_def, hf1, hf2]
  rw [hspan]
  norm_num [sliceIdx, segHit, TL.pixelToTime, TL.zoom, tlSel, tlEmpty, initTL,
    min_def, max_def, List.getD_cons_zero, List.getD_cons_succ]
